import Mathlib

/-!
# admiral-inspur: the zerolog logging sink and the REST-mapping helper

A shallow embedding of `pkg/log/kzerolog/kzerolog.go` and of
`FindGroupVersionResource` from `pkg/util/helpers.go`, followed by the
properties established about them.

Conventions of the embedding:

* a Go `string` of the logging package is its sequence of bytes (`GoString`),
  because `len` and slicing index bytes while `fmt` pads by runes;
* a run-time panic is the result `none`;
* a method with a pointer receiver returns the receiver's state after the call
  where it can write to it;
* the zerolog logger is a recorder: every event on which `Msg` is called is
  appended to the list of written events, with the fields that zerolog writes
  for it (a field is a pair of a string key and a value).
-/

set_option autoImplicit false

namespace Kzerolog

/-! ## Go strings and the library functions used by the package -/

/-- A Go string: its bytes, each below 256. -/
abbrev GoString := List Nat

/-- The bytes of the UTF-8 encoding of a code point below 0x110000. -/
def encodeRune (r : Nat) : GoString :=
  if r < 0x80 then [r]
  else if r < 0x800 then [0xC0 + r / 64, 0x80 + r % 64]
  else if r < 0x10000 then [0xE0 + r / 4096, 0x80 + r / 64 % 64, 0x80 + r % 64]
  else [0xF0 + r / 262144, 0x80 + r / 4096 % 64, 0x80 + r / 64 % 64, 0x80 + r % 64]

/-- The Go string written by a string literal. -/
def go (s : String) : GoString :=
  s.toList.flatMap fun c => encodeRune c.toNat

/-- Table `first` of Go's `unicode/utf8`, for a lead byte `c >= 0x80`: the size of
the encoding and the accepted range of the second byte; `none` is the entry `xx`
(an invalid lead byte). -/
def utf8First (c : Nat) : Option (Nat × Nat × Nat) :=
  if c < 0xC2 then none
  else if c < 0xE0 then some (2, 0x80, 0xBF)
  else if c = 0xE0 then some (3, 0xA0, 0xBF)
  else if c < 0xED then some (3, 0x80, 0xBF)
  else if c = 0xED then some (3, 0x80, 0x9F)
  else if c < 0xF0 then some (3, 0x80, 0xBF)
  else if c = 0xF0 then some (4, 0x90, 0xBF)
  else if c < 0xF4 then some (4, 0x80, 0xBF)
  else if c = 0xF4 then some (4, 0x80, 0x8F)
  else none

/-- Whether byte `c` is a UTF-8 continuation byte (`locb <= c <= hicb`). -/
def isContinuation (c : Nat) : Bool := 0x80 ≤ c && c ≤ 0xBF

/-- The number of bytes the loop of `utf8.RuneCountInString` advances by at a
string starting with byte `c` followed by `rest`. -/
def runeStep (c : Nat) (rest : GoString) : Nat :=
  if c < 0x80 then 1
  else
    match utf8First c with
    | none => 1
    | some (size, lo, hi) =>
      if 1 + rest.length < size then 1
      else
        match rest with
        | c1 :: more =>
          if c1 < lo || hi < c1 then 1
          else if size = 2 then 2
          else
            match more with
            | c2 :: more2 =>
              if !isContinuation c2 then 1
              else if size = 3 then 3
              else
                match more2 with
                | c3 :: _ => if !isContinuation c3 then 1 else 4
                | [] => 1
            | [] => 1
        | [] => 1

/-- Loop of `utf8.RuneCountInString`: one rune per iteration, an invalid or short
encoding counting as one rune of width one byte. -/
def runeCountLoop : Nat → GoString → Nat
  | 0, _ => 0
  | _ + 1, [] => 0
  | fuel + 1, c :: rest => 1 + runeCountLoop fuel (rest.drop (runeStep c rest - 1))

/-- Go's `utf8.RuneCountInString`. Every iteration consumes at least one byte, so
the length of the string is enough fuel. -/
def RuneCountInString (s : GoString) : Nat := runeCountLoop s.length s

/-- Go's `fmt.Sprintf("%-Ns", s)` for a width `width`: `s` followed by spaces up
to `width` runes (`fmt` measures the width in runes). -/
def padRight (width : Nat) (s : GoString) : GoString :=
  s ++ List.replicate (width - RuneCountInString s) 0x20

/-- Go's `strings.HasPrefix`. -/
def HasPrefix (s pre : GoString) : Bool := pre.isPrefixOf s

/-- The slice expression `s[low:]`: it panics unless `0 <= low <= len(s)`. -/
def sliceFrom {α : Type} (s : List α) (low : Int) : Option (List α) :=
  if 0 ≤ low ∧ low ≤ (s.length : Int) then some (s.drop low.toNat) else none

/-! ## The package -/

def maxLenLogger : Int := 20

def maxLenCaller : Int := 25

/-- Function `truncate` applied to a string value (`fmt.Sprintf("%s", i)` is then
the string itself). -/
def truncate (i : GoString) (maxLen : Int) : Option GoString :=
  let s := i
  let cut : Option GoString :=
    if (s.length : Int) > maxLen then
      (sliceFrom s ((s.length : Int) - maxLen + 2)).map fun tl => go ".." ++ tl
    else some s
  cut.map fun s1 => padRight maxLen.toNat s1

/-- Function `formatCaller`. -/
def formatCaller (i : GoString) : Option GoString := truncate i maxLenCaller

/-- A 32-bit signed integer: the value of `x` after wrap-around. -/
def int32 (x : Int) : Int := (x + 2147483648) % 4294967296 - 2147483648

/-- A value of type `interface{}` in a key/value list. -/
inductive Val where
  | str (s : GoString)
  | int (n : Int)
  | bool (b : Bool)
  | nil
  deriving DecidableEq, Repr

/-- The type assertion `v.(string)` in its two-result form: the string, or no
string (`ok` false) when the dynamic type of `v` is not `string`. -/
def Val.asString : Val → Option GoString
  | Val.str s => some s
  | _ => none

/-- A Go `error` value: `none` is the nil error, `some m` an error with text `m`. -/
abbrev GoError := Option GoString

/-- The constants of the collaborating package `pkg/log` (imported as `loga`) that the
package reads: the two reserved keys and the two verbosity thresholds. Their
values are parameters of the model. -/
structure Loga where
  WarningKey : GoString
  FatalKey : GoString
  DEBUG : Int
  TRACE : Int

/-- An instance of the constants of `pkg/log`, used to evaluate the model. -/
def sampleLoga : Loga :=
  { WarningKey := go "WARNING", FatalKey := go "FATAL", DEBUG := 2, TRACE := 4 }

/-- The level tag of a zerolog event. -/
inductive Level where
  | Trace | Debug | Info | Warn | Error | Fatal
  deriving DecidableEq, Repr

/-- The fields that zerolog writes for a key/value slice (its `appendFields`): a
last element without a value is dropped, and a pair whose key is not a string
writes no field. -/
def appendFieldList : List Val → List (GoString × Val)
  | k :: v :: rest =>
    match k.asString with
    | some key => (key, v) :: appendFieldList rest
    | none => appendFieldList rest
  | _ => []

/-- A zerolog event: the level it was started with, the fields of the logger it was
started from (`context`, written with the event), and what the calls `Err`,
`Fields`, `CallerSkipFrame` and `Msg` put in it. -/
structure Event where
  level : Level
  context : List (GoString × Val)
  err : Option GoError
  fields : List (GoString × Val)
  callerSkip : Int
  msg : GoString
  deriving DecidableEq, Repr

/-- A `zerolog.Logger`: the fields added by `With().Fields(...)`. The logger is a
recorder: it starts an event at every level and writes every event on which `Msg`
is called; the level filter inside zerolog is not modelled. -/
structure Logger where
  context : List (GoString × Val)
  deriving DecidableEq, Repr

/-- Methods `Trace`, `Debug`, `Info`, `Warn`, `Error` and `WithLevel` of the logger:
a new event of the level. -/
def Logger.newEvent (l : Logger) (level : Level) : Event :=
  { level := level, context := l.context, err := none, fields := [], callerSkip := 0, msg := [] }

/-- zerolog `Event.Err`. -/
def Event.Err (e : Event) (err : GoError) : Event := { e with err := some err }

/-- zerolog `Event.Fields` with a slice argument. -/
def Event.Fields (e : Event) (kvList : List Val) : Event :=
  { e with fields := e.fields ++ appendFieldList kvList }

/-- zerolog `Event.CallerSkipFrame`. -/
def Event.CallerSkipFrame (e : Event) (skip : Int) : Event :=
  { e with callerSkip := e.callerSkip + skip }

/-- zerolog `Event.Msg`: the event is written. `out` is the list of the events
written so far. -/
def Event.Msg (e : Event) (msg : GoString) (out : List Event) : List Event :=
  out ++ [{ e with msg := msg }]

/-- Type `zeroLogContext`. Field `namePrefix` is the source's field `prefix`;
`skipFrames` is the value held by the `atomic.Int32`. -/
structure zeroLogContext where
  zLogger : Logger
  namePrefix : GoString
  maxVerbosity : Int
  skipFrames : Int
  deriving DecidableEq, Repr

/-- Method `clone`: the skip-frame cell of the copy has its zero value. -/
def zeroLogContext.clone (ctx : zeroLogContext) : zeroLogContext :=
  { zLogger := ctx.zLogger, namePrefix := ctx.namePrefix, maxVerbosity := ctx.maxVerbosity,
    skipFrames := 0 }

/-- The test on `frame.Function` in `calculateSkipFrames`. -/
def isLoggingFrame (function : GoString) : Bool :=
  HasPrefix function (go "github.com/wangyd1988/admiral-inspur/pkg/log") ||
  HasPrefix function (go "github.com/go-logr") ||
  HasPrefix function (go "sigs.k8s.io/controller-runtime/pkg/log")

/-- The loop of `calculateSkipFrames` over the frames that `frames.Next()` yields,
innermost first. The body runs once even when no frame is left: `Next` then
yields a frame whose function name is empty. -/
def framesLoop : List GoString → Int → Int
  | [], skipFrames => if isLoggingFrame [] then int32 (skipFrames + 1) else skipFrames
  | function :: rest, skipFrames =>
    let skipFrames := if isLoggingFrame function then int32 (skipFrames + 1) else skipFrames
    match rest with
    | [] => skipFrames
    | _ :: _ => framesLoop rest skipFrames

/-- Method `calculateSkipFrames`. `callers` is the call stack that
`runtime.Callers(2, pc)` captures, as function names, innermost first; the
result is the context after the call and the returned count. -/
def zeroLogContext.calculateSkipFrames (ctx : zeroLogContext) (callers : List GoString) :
    zeroLogContext × Int :=
  let skipFrames := ctx.skipFrames
  if skipFrames > 0 then (ctx, skipFrames)
  else if callers.length = 0 then (ctx, 0)
  else
    let skipFrames := framesLoop callers skipFrames
    ({ ctx with skipFrames := skipFrames }, skipFrames)

/-- Method `logEvent`. -/
def zeroLogContext.logEvent (ctx : zeroLogContext) (evt : Event) (msg : GoString)
    (kvList : List Val) (callers : List GoString) (out : List Event) :
    Option (zeroLogContext × List Event) :=
  match truncate ctx.namePrefix maxLenLogger with
  | none => none
  | some name =>
    let msg := name ++ go " " ++ msg
    let evt := evt.Fields kvList
    let (ctx, skip) := ctx.calculateSkipFrames callers
    some (ctx, (evt.CallerSkipFrame skip).Msg msg out)

/-- The loop `for i := 0; i < len(kvList); i += 2` of `Info` and `Error`, from
index `i`, for the key `key`. The result is the list after the loop and whether
the key was found; `none` is the panic of the slice expression `kvList[i+2:]`.
The first argument bounds the number of iterations left. -/
def scanLoop (key : GoString) : Nat → List Val → Nat → Option (List Val × Bool)
  | 0, kvList, _ => some (kvList, false)
  | fuel + 1, kvList, i =>
    if h : i < kvList.length then
      if kvList[i].asString = some key then
        (sliceFrom kvList ((i : Int) + 2)).map fun tl => (kvList.take i ++ tl, true)
      else scanLoop key fuel kvList (i + 2)
    else some (kvList, false)

/-- The loop of `Info` and `Error` from index 0; it runs at most `len(kvList)` times. -/
def scanControlKey (key : GoString) (kvList : List Val) : Option (List Val × Bool) :=
  scanLoop key (kvList.length + 1) kvList 0

/-- Method `Info`. -/
def zeroLogContext.Info (loga : Loga) (ctx : zeroLogContext) (level : Int) (msg : GoString)
    (kvList : List Val) (callers : List GoString) (out : List Event) :
    Option (zeroLogContext × List Event) :=
  if level > ctx.maxVerbosity then some (ctx, out)
  else
    match scanControlKey loga.WarningKey kvList with
    | none => none
    | some (kvList, found) =>
      let evt :=
        if found then ctx.zLogger.newEvent Level.Warn
        else if level ≥ loga.TRACE then ctx.zLogger.newEvent Level.Trace
        else if level ≥ loga.DEBUG then ctx.zLogger.newEvent Level.Debug
        else ctx.zLogger.newEvent Level.Info
      ctx.logEvent evt msg kvList callers out

/-- Method `Error`. -/
def zeroLogContext.Error (loga : Loga) (ctx : zeroLogContext) (err : GoError) (msg : GoString)
    (kvList : List Val) (callers : List GoString) (out : List Event) :
    Option (zeroLogContext × List Event) :=
  match scanControlKey loga.FatalKey kvList with
  | none => none
  | some (kvList, found) =>
    let evt :=
      if found then ctx.zLogger.newEvent Level.Fatal
      else ctx.zLogger.newEvent Level.Error
    ctx.logEvent (evt.Err err) msg kvList callers out

/-- Method `Enabled`. -/
def zeroLogContext.Enabled (ctx : zeroLogContext) (level : Int) : Bool :=
  decide (level ≤ ctx.maxVerbosity)

/-- Method `WithName`: the receiver after the call and the new context. -/
def zeroLogContext.WithName (ctx : zeroLogContext) (name : GoString) :
    zeroLogContext × zeroLogContext :=
  let subCtx := ctx.clone
  let subCtx := if ctx.namePrefix.length > 0 then
    { subCtx with namePrefix := ctx.namePrefix ++ go "/" } else subCtx
  let subCtx := { subCtx with namePrefix := subCtx.namePrefix ++ name }
  (ctx, subCtx)

/-- Method `WithValues`: the receiver after the call and the new context. -/
def zeroLogContext.WithValues (ctx : zeroLogContext) (kvList : List Val) :
    zeroLogContext × zeroLogContext :=
  let subCtx := ctx.clone
  let logger : Logger := { context := ctx.zLogger.context ++ appendFieldList kvList }
  (ctx, { subCtx with zLogger := logger })

/-- The root context that `InitK8sLogging` installs. -/
def rootContext (verbosityLevel : Int) : zeroLogContext :=
  { zLogger := { context := [] }, namePrefix := go "", maxVerbosity := verbosityLevel,
    skipFrames := 0 }

/-! ## Notions used to state the properties -/

/-- Key position `i` of a key/value list (an even index) holds `key`. -/
def keyAt (key : GoString) (kvList : List Val) (i : Nat) : Prop :=
  i % 2 = 0 ∧ kvList[i]? = some (Val.str key)

instance (key : GoString) (kvList : List Val) (i : Nat) : Decidable (keyAt key kvList i) := by
  unfold keyAt
  exact inferInstance

/-- The effect of the control-key loop on the part of the list it has not visited
yet, pair by pair: the rest after the loop and whether the key was found. -/
def scanFrom (key : GoString) : List Val → Option (List Val × Bool)
  | [] => some ([], false)
  | [k] => if k = Val.str key then none else some ([k], false)
  | k :: v :: rest =>
    if k = Val.str key then some (rest, true)
    else (scanFrom key rest).map fun r => (k :: v :: r.1, r.2)

/-- The event that `logEvent` writes, given the truncated name. -/
def writtenEvent (ctx : zeroLogContext) (evt : Event) (msg : GoString) (kvList : List Val)
    (callers : List GoString) (name : GoString) : Event :=
  { level := evt.level, context := evt.context, err := evt.err,
    fields := evt.fields ++ appendFieldList kvList,
    callerSkip := evt.callerSkip + (ctx.calculateSkipFrames callers).2,
    msg := name ++ go " " ++ msg }

/-- The event that `Info` starts, given whether the warning key was found. -/
def infoEvent (loga : Loga) (ctx : zeroLogContext) (level : Int) (found : Bool) : Event :=
  if found then ctx.zLogger.newEvent Level.Warn
  else if level ≥ loga.TRACE then ctx.zLogger.newEvent Level.Trace
  else if level ≥ loga.DEBUG then ctx.zLogger.newEvent Level.Debug
  else ctx.zLogger.newEvent Level.Info

/-- The event that `Error` starts, given whether the fatal key was found. -/
def errorEvent (ctx : zeroLogContext) (err : GoError) (found : Bool) : Event :=
  (if found then ctx.zLogger.newEvent Level.Fatal else ctx.zLogger.newEvent Level.Error).Err err

/-- All the key/value fields of a written event: those of the logger it was started
from, then those of the call. The level, the message, the caller and the error
of the event are components of their own. -/
def Event.emitted (e : Event) : List (GoString × Val) := e.context ++ e.fields

/-- The key/value list that writes the given fields. -/
def flattenFields : List (GoString × Val) → List Val
  | [] => []
  | f :: rest => Val.str f.1 :: f.2 :: flattenFields rest

/-- Every key of the key/value list is a string. -/
def stringKeys : List Val → Bool
  | k :: _ :: rest => k.asString.isSome && stringKeys rest
  | _ => true

/-- A call of `calculateSkipFrames` that `logEvent`, its only caller, can make on a
context: the cell holds 0 or a stored count, and the capture, of at most 10
frames, starts with the frame of `logEvent`, which is a frame of the logging
layers. -/
def capturedByLogEvent (ctx : zeroLogContext) (callers : List GoString) : Bool :=
  decide (0 ≤ ctx.skipFrames) && decide (callers.length ≤ 10) &&
    match callers with
    | function :: _ => isLoggingFrame function
    | [] => false

/-- The number of consecutive innermost frames of a captured call stack that belong
to the logging layers: the count stops at the first frame of application code. -/
def innermostLoggingFrames (callers : List GoString) : Nat :=
  (callers.takeWhile isLoggingFrame).length

/-- The context after a series of later calls of `calculateSkipFrames`, one per
call stack of the list. -/
def afterCalls (ctx : zeroLogContext) (later : List (List GoString)) : zeroLogContext :=
  later.foldl (fun c callers => (c.calculateSkipFrames callers).1) ctx

end Kzerolog

namespace Util

/-! ## `FindGroupVersionResource`

Strings of this package are sequences of Unicode code points (valid UTF-8), which is
what `strings.EqualFold` ranges over. The calls of `utilruntime.HandleError`, which
only report, are left out. -/

/-- Type `schema.GroupVersionResource`. -/
structure GroupVersionResource where
  Group : String
  Version : String
  Resource : String
  deriving DecidableEq, Repr

/-- Type `schema.GroupVersionKind`. -/
structure GroupVersionKind where
  Group : String
  Version : String
  Kind : String
  deriving DecidableEq, Repr

/-- Type `schema.GroupKind`. -/
structure GroupKind where
  Group : String
  Kind : String
  deriving DecidableEq, Repr

/-- Method `GroupVersionKind.GroupKind`. -/
def GroupVersionKind.GroupKind (gvk : GroupVersionKind) : GroupKind :=
  { Group := gvk.Group, Kind := gvk.Kind }

/-- Type `meta.RESTMapping`, of which the function reads the resource. -/
structure RESTMapping where
  Resource : GroupVersionResource
  deriving DecidableEq, Repr

/-- An error returned by the REST mapper; `text` is what its method `Error` returns. -/
structure MapperError where
  text : String
  deriving DecidableEq, Repr

/-- What `RESTMapping` returns: a mapping, or an error. -/
inductive MappingResult where
  | mapping (m : RESTMapping)
  | failure (err : MapperError)
  deriving DecidableEq, Repr

/-- The error built by `errors.Wrapf(err, format, gvk)`. -/
structure WrappedError where
  cause : MapperError
  format : String
  arg : GroupVersionKind
  deriving DecidableEq, Repr

/-- Function `errors.Wrapf` applied to an error of the mapper and one argument. -/
def Wrapf (err : MapperError) (format : String) (arg : GroupVersionKind) : WrappedError :=
  { cause := err, format := format, arg := arg }

/-- Go's `strings.Contains`. -/
def Contains (s substr : String) : Bool :=
  s.toList.tails.any fun t => substr.toList.isPrefixOf t

/-- The comparison of two runes in `strings.EqualFold`. `simpleFold lo hi` stands for
the walk along the orbit of `unicode.SimpleFold` from `lo` that looks for `hi`, used
when `hi` is not ASCII; the Unicode tables are a parameter of the model. -/
def foldRune (simpleFold : Char → Char → Bool) (sr tr : Char) : Bool :=
  if tr = sr then true
  else
    let lo := if tr < sr then tr else sr
    let hi := if tr < sr then sr else tr
    if hi.toNat < 0x80 then
      decide (0x41 ≤ lo.toNat) && decide (lo.toNat ≤ 0x5A) && decide (hi.toNat = lo.toNat + 0x20)
    else simpleFold lo hi

/-- The loop of `strings.EqualFold` over the runes of the two strings. -/
def equalFoldRunes (simpleFold : Char → Char → Bool) : List Char → List Char → Bool
  | [], [] => true
  | sr :: s, tr :: t => foldRune simpleFold sr tr && equalFoldRunes simpleFold s t
  | _, _ => false

/-- Go's `strings.EqualFold`. -/
def EqualFold (simpleFold : Char → Char → Bool) (s t : String) : Bool :=
  equalFoldRunes simpleFold s.toList t.toList

def ErrMapperNotsupported : String := "no matches for kind"

def EndpointSliceKind : String := "EndpointSlice"

def EndpointSliceResource : String := "endpointslices"

/-- Constant `GroupName` of `k8s.io/api/discovery/v1`. -/
def discoveryV1GroupName : String := "discovery.k8s.io"

/-- Version of `SchemeGroupVersion` of `k8s.io/api/discovery/v1`. -/
def discoveryV1Version : String := "v1"

/-- The map `verionToGVR` after `init`, as its list of entries. -/
def verionToGVR : List (String × GroupVersionResource) :=
  let endpointSliceGVR : GroupVersionResource :=
    { Group := discoveryV1GroupName, Version := discoveryV1Version,
      Resource := EndpointSliceResource }
  let endpointSliceV1Beta1GVR : GroupVersionResource :=
    { Group := discoveryV1GroupName, Version := "v1beta1", Resource := EndpointSliceResource }
  [(endpointSliceGVR.Version, endpointSliceGVR),
    (endpointSliceV1Beta1GVR.Version, endpointSliceV1Beta1GVR)]

/-- The loop `for endpointSliceVersion, gvr := range verionToGVR` over the entries in
the order of the iteration: the resource it returns, if it returns. -/
def rangeLoop (simpleFold : Char → Char → Bool) (version : String) :
    List (String × GroupVersionResource) → Option GroupVersionResource
  | [] => none
  | (endpointSliceVersion, gvr) :: rest =>
    if !EqualFold simpleFold version endpointSliceVersion then
      rangeLoop simpleFold version rest
    else some gvr

/-- Function `FindGroupVersionResource`, for an object whose group, version and kind
are `gvk`. `entries` is the entries of `verionToGVR` in the order in which this
call iterates over the map, an order that Go leaves open. The result is the
pair of the returned pointer and error. -/
def FindGroupVersionResource (simpleFold : Char → Char → Bool)
    (entries : List (String × GroupVersionResource)) (gvk : GroupVersionKind)
    (restMapper : GroupKind → String → MappingResult) :
    Option GroupVersionResource × Option WrappedError :=
  match restMapper gvk.GroupKind gvk.Version with
  | MappingResult.failure err =>
    let wrapped : Option GroupVersionResource × Option WrappedError :=
      (none, some (Wrapf err "error getting REST mapper for %#v" gvk))
    if Contains err.text ErrMapperNotsupported &&
        EqualFold simpleFold gvk.Kind EndpointSliceKind then
      match rangeLoop simpleFold gvk.Version entries with
      | some gvr => (some gvr, none)
      | none => wrapped
    else wrapped
  | MappingResult.mapping m => (some m.Resource, none)

/-- The built-in resource of endpoint slices at version `v`. -/
def builtinResource (v : String) : GroupVersionResource :=
  { Group := "discovery.k8s.io", Version := v, Resource := "endpointslices" }

/-- The condition under which the built-in resource of version `v` stands in for a
failed mapping: the text of the error contains "no matches for kind", the kind
is "EndpointSlice" and the version is `v`, both ignoring case. -/
def builtinApplies (simpleFold : Char → Char → Bool) (err : MapperError)
    (gvk : GroupVersionKind) (v : String) : Bool :=
  Contains err.text "no matches for kind" && EqualFold simpleFold gvk.Kind "EndpointSlice" &&
    EqualFold simpleFold gvk.Version v

/-- A rune comparison that knows the ASCII letters only, used to evaluate the model. -/
def asciiFold : Char → Char → Bool := fun _ _ => false

end Util

namespace Kzerolog

/-! ## Properties of the library functions -/

theorem asString_eq_some (v : Val) (key : GoString) :
    v.asString = some key ↔ v = Val.str key := by
  cases v <;> simp [Val.asString]

theorem runeCountLoop_ascii (fuel : Nat) (s : GoString) (hs : ∀ b ∈ s, b < 0x80)
    (hfuel : s.length ≤ fuel) : runeCountLoop fuel s = s.length := by
  induction fuel generalizing s with
  | zero =>
    have : s = [] := List.length_eq_zero.mp (Nat.le_zero.mp hfuel)
    subst this
    rfl
  | succ fuel ih =>
    cases s with
    | nil => rfl
    | cons c rest =>
      have hc : c < 0x80 := hs c (List.mem_cons_self c rest)
      have hstep : runeStep c rest = 1 := by simp [runeStep, hc]
      have hrest : ∀ b ∈ rest, b < 0x80 := fun b hb => hs b (List.mem_cons_of_mem c hb)
      have hlen : rest.length ≤ fuel := by simpa using hfuel
      simp only [runeCountLoop, hstep, Nat.sub_self, List.drop_zero, List.length_cons]
      rw [ih rest hrest hlen]
      omega

/-- More fuel than the length of the string changes nothing: the bound of
`RuneCountInString` is never reached. -/
theorem runeCountLoop_fuel (fuel1 fuel2 : Nat) (s : GoString)
    (h1 : s.length ≤ fuel1) (h2 : s.length ≤ fuel2) :
    runeCountLoop fuel1 s = runeCountLoop fuel2 s := by
  induction fuel1 generalizing fuel2 s with
  | zero =>
    have hs : s = [] := List.length_eq_zero.mp (Nat.le_zero.mp h1)
    subst hs
    cases fuel2 <;> rfl
  | succ fuel1 ih =>
    cases s with
    | nil => cases fuel2 <;> rfl
    | cons c rest =>
      cases fuel2 with
      | zero => simp at h2
      | succ fuel2 =>
        have hlen : (rest.drop (runeStep c rest - 1)).length ≤ rest.length := by
          rw [List.length_drop]
          omega
        simp only [List.length_cons] at h1 h2
        simp only [runeCountLoop]
        rw [ih fuel2 _ (by omega) (by omega)]

theorem RuneCountInString_ascii (s : GoString) (hs : ∀ b ∈ s, b < 0x80) :
    RuneCountInString s = s.length :=
  runeCountLoop_ascii s.length s hs (Nat.le_refl _)

theorem go_dotdot : go ".." = [0x2E, 0x2E] := by decide

theorem truncate_of_ascii_bytes (s : GoString) (n : Nat) (h2 : 2 ≤ n) (hs : ∀ b ∈ s, b < 0x80) :
    ∃ r, truncate s (n : Int) = some r ∧ r.length = n ∧
      (s.length ≤ n → r = s ++ List.replicate (n - s.length) 0x20) ∧
      (n < s.length → r = go ".." ++ s.drop (s.length - (n - 2))) := by
  by_cases hlen : s.length ≤ n
  · refine ⟨s ++ List.replicate (n - s.length) 0x20, ?_, ?_, fun _ => rfl, fun h => ?_⟩
    · have hnot : ¬ ((s.length : Int) > (n : Int)) := by omega
      simp [truncate, hnot, padRight, RuneCountInString_ascii s hs]
    · simp
      omega
    · omega
  · have hgt : (s.length : Int) > (n : Int) := by omega
    have hlow : (0 : Int) ≤ (s.length : Int) - n + 2 ∧
        (s.length : Int) - n + 2 ≤ (s.length : Int) := by omega
    have htoNat : ((s.length : Int) - n + 2).toNat = s.length - (n - 2) := by omega
    have hascii : ∀ b ∈ go ".." ++ s.drop (s.length - (n - 2)), b < 0x80 := by
      intro b hb
      rcases List.mem_append.mp hb with hb | hb
      · rw [go_dotdot] at hb
        simp at hb
        omega
      · exact hs b (List.mem_of_mem_drop hb)
    have hlen2 : (go ".." ++ s.drop (s.length - (n - 2))).length = n := by
      rw [go_dotdot]
      simp
      omega
    refine ⟨go ".." ++ s.drop (s.length - (n - 2)), ?_, hlen2, fun h => absurd h hlen, fun _ => rfl⟩
    simp only [truncate, hgt, if_true, sliceFrom, hlow, and_self, htoNat, Option.map_some',
      padRight, Int.toNat_ofNat]
    rw [RuneCountInString_ascii _ hascii, hlen2]
    simp

/-! ## The control-key loop -/

theorem scanLoop_append (key : GoString) (fuel : Nat) (pre rest : List Val)
    (hfuel : rest.length < fuel) :
    scanLoop key fuel (pre ++ rest) pre.length =
      (scanFrom key rest).map fun r => (pre ++ r.1, r.2) := by
  induction fuel generalizing pre rest with
  | zero => omega
  | succ fuel ih =>
    match rest, hfuel with
    | [], _ => simp [scanLoop, scanFrom]
    | [k], _ =>
      have hlt : pre.length < (pre ++ [k]).length := by simp
      have hget : (pre ++ [k])[pre.length] = k := by simp
      rw [scanLoop, dif_pos hlt]
      simp only [hget, asString_eq_some, scanFrom]
      by_cases hk : k = Val.str key
      · have hslice : sliceFrom (pre ++ [k]) ((pre.length : Int) + 2) = none := by
          have : ¬ ((0 : Int) ≤ (pre.length : Int) + 2 ∧
              (pre.length : Int) + 2 ≤ ((pre ++ [k]).length : Int)) := by
            simp
          simp only [sliceFrom, this, if_false]
        rw [if_pos hk, if_pos hk, hslice]
        rfl
      · have hnext : scanLoop key fuel (pre ++ [k]) (pre.length + 2) = some (pre ++ [k], false) := by
          cases fuel with
          | zero => rfl
          | succ f =>
            have : ¬ pre.length + 2 < (pre ++ [k]).length := by simp
            rw [scanLoop, dif_neg this]
        rw [if_neg hk, if_neg hk, hnext]
        rfl
    | k :: v :: rest2, hfuel2 =>
      have hlt : pre.length < (pre ++ k :: v :: rest2).length := by simp
      have hget : (pre ++ k :: v :: rest2)[pre.length] = k := by
        rw [List.getElem_append_right (Nat.le_refl _)]
        simp
      rw [scanLoop, dif_pos hlt]
      simp only [hget, asString_eq_some, scanFrom]
      by_cases hk : k = Val.str key
      · have hbound : (0 : Int) ≤ (pre.length : Int) + 2 ∧
            (pre.length : Int) + 2 ≤ ((pre ++ k :: v :: rest2).length : Int) := by
          simp
          omega
        have hdrop : (pre ++ k :: v :: rest2).drop ((pre.length : Int) + 2).toNat = rest2 := by
          have h1 : ((pre.length : Int) + 2).toNat = (pre ++ [k, v]).length := by
            rw [List.length_append]
            simp only [List.length_cons, List.length_nil]
            omega
          have h2 : pre ++ k :: v :: rest2 = (pre ++ [k, v]) ++ rest2 := by simp
          rw [h1, h2, List.drop_left]
        have htake : (pre ++ k :: v :: rest2).take pre.length = pre := List.take_left _ _
        rw [if_pos hk, if_pos hk, sliceFrom, if_pos hbound, hdrop, htake]
        rfl
      · have h2 : pre ++ k :: v :: rest2 = (pre ++ [k, v]) ++ rest2 := by simp
        have hlen : pre.length + 2 = (pre ++ [k, v]).length := by simp
        have hf : rest2.length < fuel := by
          simp at hfuel2
          omega
        rw [if_neg hk, if_neg hk, h2, hlen, ih (pre ++ [k, v]) rest2 hf]
        cases scanFrom key rest2 <;> simp

theorem scanControlKey_eq (key : GoString) (kvList : List Val) :
    scanControlKey key kvList = scanFrom key kvList := by
  have h := scanLoop_append key (kvList.length + 1) [] kvList (Nat.lt_succ_self _)
  simp only [List.nil_append, List.length_nil] at h
  rw [scanControlKey, h]
  cases scanFrom key kvList <;> simp

/-- More iterations than the length of the list change nothing: the bound of
`scanControlKey` is never reached. -/
theorem scanLoop_fuel (key : GoString) (kvList : List Val) (fuel : Nat)
    (hfuel : kvList.length < fuel) :
    scanLoop key fuel kvList 0 = scanControlKey key kvList := by
  have h := scanLoop_append key fuel [] kvList hfuel
  simp only [List.nil_append, List.length_nil] at h
  rw [scanControlKey_eq, h]
  cases scanFrom key kvList <;> simp

theorem keyAt_zero (key : GoString) (k : Val) (rest : List Val) :
    keyAt key (k :: rest) 0 ↔ k = Val.str key := by
  simp [keyAt]

theorem not_keyAt_one (key : GoString) (l : List Val) : ¬ keyAt key l 1 := by
  simp [keyAt]

theorem keyAt_add_two (key : GoString) (k v : Val) (rest : List Val) (j : Nat) :
    keyAt key (k :: v :: rest) (j + 2) ↔ keyAt key rest j := by
  simp [keyAt, Nat.add_mod]

theorem not_keyAt_nil (key : GoString) (i : Nat) : ¬ keyAt key [] i := by
  simp [keyAt]

theorem scanFrom_even (key : GoString) :
    ∀ l : List Val, l.length % 2 = 0 → ∃ r, scanFrom key l = some r
  | [], _ => ⟨_, rfl⟩
  | [_], h => by simp at h
  | k :: v :: rest, h => by
    have hrest : rest.length % 2 = 0 := by
      simp only [List.length_cons] at h
      omega
    obtain ⟨r, hr⟩ := scanFrom_even key rest hrest
    by_cases hk : k = Val.str key
    · exact ⟨(rest, true), by simp [scanFrom, hk]⟩
    · exact ⟨(k :: v :: r.1, r.2), by simp [scanFrom, hk, hr]⟩

theorem scanFrom_found (key : GoString) :
    ∀ (l r : List Val), scanFrom key l = some (r, true) →
      ∃ i, keyAt key l i ∧ i + 1 < l.length ∧ (∀ j, j < i → ¬ keyAt key l j) ∧
        r = l.take i ++ l.drop (i + 2)
  | [], r, h => by simp [scanFrom] at h
  | [k], r, h => by
    by_cases hk : k = Val.str key <;> simp [scanFrom, hk] at h
  | k :: v :: rest, r, h => by
    by_cases hk : k = Val.str key
    · simp only [scanFrom, hk, if_true, Option.some.injEq, Prod.mk.injEq, and_true] at h
      refine ⟨0, (keyAt_zero key k _).mpr hk, by simp, fun j hj => absurd hj (Nat.not_lt_zero j), ?_⟩
      simp [h]
    · simp only [scanFrom, hk, if_false, Option.map_eq_some', Prod.mk.injEq] at h
      obtain ⟨⟨r1, b⟩, hr1, hr, hb⟩ := h
      simp only at hr hb
      subst hb
      obtain ⟨i, hi, hlt, hmin, hrest⟩ := scanFrom_found key rest r1 hr1
      refine ⟨i + 2, (keyAt_add_two key k v rest i).mpr hi, by simp; omega, ?_, ?_⟩
      · intro j hj
        match j, hj with
        | 0, _ => exact fun h0 => hk ((keyAt_zero key k _).mp h0)
        | 1, _ => exact not_keyAt_one key _
        | j + 2, hj2 =>
          exact fun h2 => hmin j (by omega) ((keyAt_add_two key k v rest j).mp h2)
      · rw [← hr, hrest]
        simp

theorem scanFrom_not_found (key : GoString) :
    ∀ (l r : List Val), scanFrom key l = some (r, false) → r = l ∧ ∀ i, ¬ keyAt key l i
  | [], r, h => by
    simp only [scanFrom, Option.some.injEq, Prod.mk.injEq, and_true] at h
    exact ⟨h.symm, fun i => not_keyAt_nil key i⟩
  | [k], r, h => by
    by_cases hk : k = Val.str key
    · simp [scanFrom, hk] at h
    · simp only [scanFrom, hk, if_false, Option.some.injEq, Prod.mk.injEq, and_true] at h
      refine ⟨h.symm, fun i => ?_⟩
      match i with
      | 0 => exact fun h0 => hk ((keyAt_zero key k _).mp h0)
      | i + 1 => simp [keyAt]
  | k :: v :: rest, r, h => by
    by_cases hk : k = Val.str key
    · simp [scanFrom, hk] at h
    · simp only [scanFrom, hk, if_false, Option.map_eq_some', Prod.mk.injEq] at h
      obtain ⟨⟨r1, b⟩, hr1, hr, hb⟩ := h
      simp only at hr hb
      subst hb
      obtain ⟨hrest, hno⟩ := scanFrom_not_found key rest r1 hr1
      refine ⟨by rw [← hr, hrest], fun i => ?_⟩
      match i with
      | 0 => exact fun h0 => hk ((keyAt_zero key k _).mp h0)
      | 1 => exact not_keyAt_one key _
      | i + 2 => exact fun h2 => hno i ((keyAt_add_two key k v rest i).mp h2)

/-! ## Emission -/

theorem truncate_some (s : GoString) (maxLen : Int) (h2 : 2 ≤ maxLen) :
    ∃ r, truncate s maxLen = some r := by
  by_cases hgt : (s.length : Int) > maxLen
  · have hlow : (0 : Int) ≤ (s.length : Int) - maxLen + 2 ∧
        (s.length : Int) - maxLen + 2 ≤ (s.length : Int) := by omega
    exact ⟨padRight maxLen.toNat (go ".." ++ s.drop ((s.length : Int) - maxLen + 2).toNat),
      by simp only [truncate, hgt, if_true, sliceFrom, hlow, and_self, Option.map_some']⟩
  · exact ⟨padRight maxLen.toNat s, by simp only [truncate, hgt, if_false, Option.map_some']⟩

theorem logEvent_some (ctx : zeroLogContext) (evt : Event) (msg : GoString) (kvList : List Val)
    (callers : List GoString) (out : List Event) :
    ∃ name, truncate ctx.namePrefix maxLenLogger = some name ∧
      ctx.logEvent evt msg kvList callers out =
        some ((ctx.calculateSkipFrames callers).1,
          out ++ [writtenEvent ctx evt msg kvList callers name]) := by
  obtain ⟨name, hname⟩ := truncate_some ctx.namePrefix maxLenLogger (by decide)
  refine ⟨name, hname, ?_⟩
  simp only [zeroLogContext.logEvent, hname]
  rfl

theorem infoEvent_fields (loga : Loga) (ctx : zeroLogContext) (level : Int) (found : Bool) :
    (infoEvent loga ctx level found).fields = [] := by
  unfold infoEvent
  split_ifs <;> rfl

theorem infoEvent_found (loga : Loga) (ctx : zeroLogContext) (level : Int) :
    (infoEvent loga ctx level true).level = Level.Warn := rfl

theorem errorEvent_fields (ctx : zeroLogContext) (err : GoError) (found : Bool) :
    (errorEvent ctx err found).fields = [] := by
  cases found <;> rfl

theorem errorEvent_err (ctx : zeroLogContext) (err : GoError) (found : Bool) :
    (errorEvent ctx err found).err = some err := by
  cases found <;> rfl

theorem Info_disabled (loga : Loga) (ctx : zeroLogContext) (level : Int) (msg : GoString)
    (kvList : List Val) (callers : List GoString) (out : List Event)
    (h : ctx.maxVerbosity < level) :
    ctx.Info loga level msg kvList callers out = some (ctx, out) := by
  simp only [zeroLogContext.Info, gt_iff_lt, h, if_true]

theorem Info_enabled (loga : Loga) (ctx : zeroLogContext) (level : Int) (msg : GoString)
    (kvList : List Val) (callers : List GoString) (out : List Event)
    (h : level ≤ ctx.maxVerbosity) :
    ctx.Info loga level msg kvList callers out =
      (scanFrom loga.WarningKey kvList).bind fun r =>
        ctx.logEvent (infoEvent loga ctx level r.2) msg r.1 callers out := by
  have hnot : ¬ level > ctx.maxVerbosity := by omega
  simp only [zeroLogContext.Info, hnot, if_false, scanControlKey_eq]
  cases scanFrom loga.WarningKey kvList with
  | none => rfl
  | some r => rfl

theorem Error_eq (loga : Loga) (ctx : zeroLogContext) (err : GoError) (msg : GoString)
    (kvList : List Val) (callers : List GoString) (out : List Event) :
    ctx.Error loga err msg kvList callers out =
      (scanFrom loga.FatalKey kvList).bind fun r =>
        ctx.logEvent (errorEvent ctx err r.2) msg r.1 callers out := by
  simp only [zeroLogContext.Error, scanControlKey_eq]
  cases scanFrom loga.FatalKey kvList with
  | none => rfl
  | some r =>
    obtain ⟨kv1, found⟩ := r
    cases found <;> rfl

theorem infoEvent_context (loga : Loga) (ctx : zeroLogContext) (level : Int) (found : Bool) :
    (infoEvent loga ctx level found).context = ctx.zLogger.context := by
  unfold infoEvent
  split_ifs <;> rfl

theorem errorEvent_context (ctx : zeroLogContext) (err : GoError) (found : Bool) :
    (errorEvent ctx err found).context = ctx.zLogger.context := by
  cases found <;> rfl

/-- What an enabled `Info` call on a list the scan accepts does: one event, built
from the result of the scan. -/
theorem Info_of_scan (loga : Loga) (ctx : zeroLogContext) (level : Int) (msg : GoString)
    (kvList : List Val) (callers : List GoString) (out : List Event)
    (h : level ≤ ctx.maxVerbosity) (r : List Val × Bool)
    (hr : scanFrom loga.WarningKey kvList = some r) :
    ∃ ctx1 e, ctx.Info loga level msg kvList callers out = some (ctx1, out ++ [e]) ∧
      e.fields = appendFieldList r.1 ∧ e.context = ctx.zLogger.context ∧
      e.level = (infoEvent loga ctx level r.2).level := by
  obtain ⟨name, _, hlog⟩ := logEvent_some ctx (infoEvent loga ctx level r.2) msg r.1 callers out
  refine ⟨(ctx.calculateSkipFrames callers).1,
    writtenEvent ctx (infoEvent loga ctx level r.2) msg r.1 callers name, ?_, ?_, ?_, ?_⟩
  · rw [Info_enabled loga ctx level msg kvList callers out h, hr]
    exact hlog
  · simp [writtenEvent, infoEvent_fields]
  · simp [writtenEvent, infoEvent_context]
  · rfl

/-- What an `Error` call on a list the scan accepts does: one event, built from
the result of the scan. -/
theorem Error_of_scan (loga : Loga) (ctx : zeroLogContext) (err : GoError) (msg : GoString)
    (kvList : List Val) (callers : List GoString) (out : List Event)
    (r : List Val × Bool) (hr : scanFrom loga.FatalKey kvList = some r) :
    ∃ ctx1 e, ctx.Error loga err msg kvList callers out = some (ctx1, out ++ [e]) ∧
      e.fields = appendFieldList r.1 ∧ e.context = ctx.zLogger.context ∧ e.err = some err ∧
      e.level = (if r.2 then Level.Fatal else Level.Error) := by
  obtain ⟨name, _, hlog⟩ := logEvent_some ctx (errorEvent ctx err r.2) msg r.1 callers out
  refine ⟨(ctx.calculateSkipFrames callers).1,
    writtenEvent ctx (errorEvent ctx err r.2) msg r.1 callers name, ?_, ?_, ?_, ?_, ?_⟩
  · rw [Error_eq loga ctx err msg kvList callers out, hr]
    exact hlog
  · simp [writtenEvent, errorEvent_fields]
  · simp [writtenEvent, errorEvent_context]
  · simp [writtenEvent, errorEvent_err]
  · obtain ⟨kv1, found⟩ := r
    cases found <;> rfl

theorem no_key_after_removal (key : GoString) (kvList : List Val) (i : Nat)
    (huniq : ∀ a b, keyAt key kvList a → keyAt key kvList b → a = b)
    (hi : keyAt key kvList i) :
    ∀ j, ¬ keyAt key (kvList.take i ++ kvList.drop (i + 2)) j := by
  intro j hj
  have hilt : i < kvList.length := by
    by_contra hge
    have : kvList[i]? = none := List.getElem?_eq_none (by omega)
    rw [hi.2] at this
    exact Option.noConfusion this
  have htake : (kvList.take i).length = i := by
    rw [List.length_take]
    omega
  by_cases hlt : j < i
  · have h1 : (kvList.take i ++ kvList.drop (i + 2))[j]? = kvList[j]? := by
      rw [List.getElem?_append_left (by omega), List.getElem?_take_of_lt hlt]
    have hkj : keyAt key kvList j := ⟨hj.1, by rw [← h1]; exact hj.2⟩
    have := huniq j i hkj hi
    omega
  · have h1 : (kvList.take i ++ kvList.drop (i + 2))[j]? = kvList[j + 2]? := by
      rw [List.getElem?_append_right (by omega), htake, List.getElem?_drop]
      congr 1
      omega
    have hkj : keyAt key kvList (j + 2) := ⟨by have := hj.1; omega, by rw [← h1]; exact hj.2⟩
    have := huniq (j + 2) i hkj hi
    omega

theorem keyAt_lt_length (key : GoString) (kvList : List Val) (i : Nat)
    (hi : keyAt key kvList i) : i < kvList.length := by
  by_contra hge
  have : kvList[i]? = none := List.getElem?_eq_none (by omega)
  rw [hi.2] at this
  exact Option.noConfusion this

theorem emitted_inj {α β : Type} (a b : α) (out : List β) (x y : β)
    (h : some (a, out ++ [x]) = some (b, out ++ [y])) : x = y := by
  simp only [Option.some.injEq, Prod.mk.injEq, List.append_cancel_left_eq, List.cons.injEq,
    and_true] at h
  exact h.2

/-! ## The fields that zerolog writes -/

theorem appendFieldList_cons_cons_str (key : GoString) (v : Val) (rest : List Val) :
    appendFieldList (Val.str key :: v :: rest) = (key, v) :: appendFieldList rest := rfl

theorem appendFieldList_cons_cons (k v : Val) (rest : List Val) :
    appendFieldList (k :: v :: rest) =
      match k.asString with
      | some key => (key, v) :: appendFieldList rest
      | none => appendFieldList rest := rfl

/-- When the scan finds the key, the fields written for the list it leaves are the
fields written for the list it was given, without the first field of that key. -/
theorem scanFrom_fields_found (key : GoString) :
    ∀ (l r : List Val), scanFrom key l = some (r, true) →
      ∃ pre post v, appendFieldList l = pre ++ (key, v) :: post ∧
        (∀ f ∈ pre, f.1 ≠ key) ∧ appendFieldList r = pre ++ post
  | [], r, h => by simp [scanFrom] at h
  | [k], r, h => by
    by_cases hk : k = Val.str key <;> simp [scanFrom, hk] at h
  | k :: v :: rest, r, h => by
    by_cases hk : k = Val.str key
    · simp only [scanFrom, hk, if_true, Option.some.injEq, Prod.mk.injEq, and_true] at h
      subst h
      subst hk
      exact ⟨[], appendFieldList rest, v, rfl, fun f hf => absurd hf (List.not_mem_nil f), rfl⟩
    · simp only [scanFrom, hk, if_false, Option.map_eq_some', Prod.mk.injEq] at h
      obtain ⟨⟨r1, b⟩, hr1, hr, hb⟩ := h
      simp only at hr hb
      subst hb
      subst hr
      obtain ⟨pre, post, w, hl, hpre, hr2⟩ := scanFrom_fields_found key rest r1 hr1
      cases hs : k.asString with
      | none =>
        refine ⟨pre, post, w, ?_, hpre, ?_⟩
        · rw [appendFieldList_cons_cons, hs]
          exact hl
        · rw [appendFieldList_cons_cons, hs]
          exact hr2
      | some s =>
        have hne : s ≠ key := fun hsk => hk ((asString_eq_some k key).mp (hsk ▸ hs))
        refine ⟨(s, v) :: pre, post, w, ?_, ?_, ?_⟩
        · rw [appendFieldList_cons_cons, hs]
          simp only [hl, List.cons_append]
        · intro f hf
          rcases List.mem_cons.mp hf with rfl | hf
          · exact hne
          · exact hpre f hf
        · rw [appendFieldList_cons_cons, hs]
          simp only [hr2, List.cons_append]

/-- A list that holds the key at no key position writes no field of that key. -/
theorem appendFieldList_no_key (key : GoString) :
    ∀ l : List Val, (∀ i, ¬ keyAt key l i) → ∀ f ∈ appendFieldList l, f.1 ≠ key
  | [], _, f, hf => absurd hf (List.not_mem_nil f)
  | [_], _, f, hf => absurd hf (List.not_mem_nil f)
  | k :: v :: rest, hno, f, hf => by
    have hrest : ∀ i, ¬ keyAt key rest i := fun i hi =>
      hno (i + 2) ((keyAt_add_two key k v rest i).mpr hi)
    have ih := appendFieldList_no_key key rest hrest
    rw [appendFieldList_cons_cons] at hf
    cases hs : k.asString with
    | none =>
      rw [hs] at hf
      exact ih f hf
    | some s =>
      rw [hs] at hf
      rcases List.mem_cons.mp hf with rfl | hf
      · intro hsk
        apply hno 0
        rw [keyAt_zero]
        exact (asString_eq_some k key).mp (hsk ▸ hs)
      · exact ih f hf

/-- A list of even length whose keys are all strings is written field by field. -/
theorem flattenFields_appendFieldList :
    ∀ l : List Val, stringKeys l = true → l.length % 2 = 0 →
      flattenFields (appendFieldList l) = l
  | [], _, _ => rfl
  | [_], _, h => by simp at h
  | k :: v :: rest, hk, hlen => by
    simp only [stringKeys, Bool.and_eq_true] at hk
    have hrest : rest.length % 2 = 0 := by
      simp only [List.length_cons] at hlen
      omega
    have ih := flattenFields_appendFieldList rest hk.2 hrest
    cases k with
    | str s => simp only [appendFieldList_cons_cons_str, flattenFields, ih]
    | int n => simp [Val.asString] at hk
    | bool b => simp [Val.asString] at hk
    | nil => simp [Val.asString] at hk

/-- The scan keeps the keys strings and the length even. -/
theorem scanFrom_stringKeys (key : GoString) :
    ∀ (l : List Val) (r : List Val × Bool), scanFrom key l = some r →
      stringKeys l = true → l.length % 2 = 0 → stringKeys r.1 = true ∧ r.1.length % 2 = 0
  | [], r, h, _, _ => by
    simp only [scanFrom, Option.some.injEq] at h
    subst h
    exact ⟨rfl, rfl⟩
  | [_], _, _, _, hlen => by simp at hlen
  | k :: v :: rest, r, h, hk, hlen => by
    simp only [stringKeys, Bool.and_eq_true] at hk
    have hrest : rest.length % 2 = 0 := by
      simp only [List.length_cons] at hlen
      omega
    by_cases hkey : k = Val.str key
    · simp only [scanFrom, hkey, if_true, Option.some.injEq] at h
      subst h
      exact ⟨hk.2, hrest⟩
    · simp only [scanFrom, hkey, if_false, Option.map_eq_some'] at h
      obtain ⟨r1, hr1, hr⟩ := h
      subst hr
      obtain ⟨h1, h2⟩ := scanFrom_stringKeys key rest r1 hr1 hk.2 hrest
      refine ⟨?_, ?_⟩
      · simp only [stringKeys, Bool.and_eq_true]
        exact ⟨hk.1, h1⟩
      · simp only [List.length_cons]
        omega

/-! ## The verbosity gate and the control keys -/

/-- C1. On an even-length key/value list, `Enabled(L)` is true exactly when `L` is at
most the verbosity ceiling, `Info` at a level within the ceiling writes exactly
one event, and `Info` at a level above it writes none and leaves the context as
it is. -/
theorem Enabled_Info_verbosity_gate (loga : Loga) (ctx : zeroLogContext) (level : Int)
    (msg : GoString) (kvList : List Val) (callers : List GoString) (out : List Event)
    (hlen : kvList.length % 2 = 0) :
    (ctx.Enabled level = true ↔ level ≤ ctx.maxVerbosity) ∧
    (level ≤ ctx.maxVerbosity →
      ∃ ctx1 e, ctx.Info loga level msg kvList callers out = some (ctx1, out ++ [e])) ∧
    (ctx.maxVerbosity < level → ctx.Info loga level msg kvList callers out = some (ctx, out)) := by
  refine ⟨by simp [zeroLogContext.Enabled], fun h => ?_, fun h => ?_⟩
  · obtain ⟨r, hr⟩ := scanFrom_even loga.WarningKey kvList hlen
    obtain ⟨ctx1, e, he, _⟩ := Info_of_scan loga ctx level msg kvList callers out h r hr
    exact ⟨ctx1, e, he⟩
  · exact Info_disabled loga ctx level msg kvList callers out h

/-- Counterexample to C2: the first pair of the list has the key 1, which is not a
string, and the second has the warning key. The list without the warning pair
is the pair (1, 2), but the event, written at Warn, has no field: zerolog writes
no field for a pair whose key is not a string. -/
theorem Info_drops_pair_without_string_key :
    [Val.int 1, Val.int 2, Val.str sampleLoga.WarningKey, Val.bool true].take 2 ++
      [Val.int 1, Val.int 2, Val.str sampleLoga.WarningKey, Val.bool true].drop 4 =
        [Val.int 1, Val.int 2] ∧
    (∃ ctx1 e, (rootContext 0).Info sampleLoga 0 (go "m")
        [Val.int 1, Val.int 2, Val.str sampleLoga.WarningKey, Val.bool true] [] [] =
          some (ctx1, [e]) ∧ e.level = Level.Warn ∧ e.emitted = []) ∧
    (∃ ctx1 e, (rootContext 0).Info sampleLoga 0 (go "m") [Val.int 1, Val.int 2] [] [] =
        some (ctx1, [e]) ∧ e.emitted = []) := by
  refine ⟨by decide, ⟨_, _, rfl, ?_, ?_⟩, ⟨_, _, rfl, ?_⟩⟩ <;> decide

/-- C2, amended. An enabled `Info` call on an even-length list writes one event, which
has the fields of the context and the fields of the call. When a key position holds
the warning key, the level of the event is Warn whatever the numeric level, and
the fields of the call are those written for the list without the first pair whose
key is the warning key; when no key position holds it, they are those written for
the list itself. A pair whose key is not a string writes no field; when every
key is a string, the fields of the call are, pair by pair and in order, the list
without that first pair, respectively the list itself. -/
theorem Info_warning_key (loga : Loga) (ctx : zeroLogContext) (level : Int)
    (msg : GoString) (kvList : List Val) (callers : List GoString) (out : List Event)
    (hlen : kvList.length % 2 = 0) (hen : level ≤ ctx.maxVerbosity) :
    ∃ ctx1 e, ctx.Info loga level msg kvList callers out = some (ctx1, out ++ [e]) ∧
      e.context = ctx.zLogger.context ∧
      ((∃ i, keyAt loga.WarningKey kvList i) →
        e.level = Level.Warn ∧
        ∃ i, keyAt loga.WarningKey kvList i ∧ (∀ j, j < i → ¬ keyAt loga.WarningKey kvList j) ∧
          e.fields = appendFieldList (kvList.take i ++ kvList.drop (i + 2)) ∧
          (stringKeys kvList = true →
            flattenFields e.fields = kvList.take i ++ kvList.drop (i + 2))) ∧
      ((∀ i, ¬ keyAt loga.WarningKey kvList i) →
        e.fields = appendFieldList kvList ∧
        (stringKeys kvList = true → flattenFields e.fields = kvList)) := by
  obtain ⟨⟨kv1, found⟩, hr⟩ := scanFrom_even loga.WarningKey kvList hlen
  obtain ⟨ctx1, e, he, hfields, hcontext, hlevel⟩ :=
    Info_of_scan loga ctx level msg kvList callers out hen (kv1, found) hr
  have hflat : stringKeys kvList = true → flattenFields e.fields = kv1 := by
    intro hkeys
    obtain ⟨h1, h2⟩ := scanFrom_stringKeys loga.WarningKey kvList (kv1, found) hr hkeys hlen
    rw [hfields]
    exact flattenFields_appendFieldList kv1 h1 h2
  refine ⟨ctx1, e, he, hcontext, ?_, ?_⟩
  · intro hex
    cases found with
    | true =>
      obtain ⟨i, hi, _, hmin, hkv⟩ := scanFrom_found loga.WarningKey kvList kv1 hr
      exact ⟨hlevel, i, hi, hmin, by rw [hfields, ← hkv], fun hkeys => by rw [hflat hkeys, hkv]⟩
    | false =>
      obtain ⟨i, hi⟩ := hex
      exact absurd hi ((scanFrom_not_found loga.WarningKey kvList kv1 hr).2 i)
  · intro hno
    cases found with
    | true =>
      obtain ⟨i, hi, _⟩ := scanFrom_found loga.WarningKey kvList kv1 hr
      exact absurd hi (hno i)
    | false =>
      have hkv := (scanFrom_not_found loga.WarningKey kvList kv1 hr).1
      exact ⟨by rw [hfields, ← hkv], fun hkeys => by rw [hflat hkeys, hkv]⟩

/-- C3. `Error` on an even-length list writes exactly one event, whatever the
verbosity ceiling, and the event carries the error value. When a key position
holds the fatal key the level is Fatal and the first pair whose key is the fatal
key is removed from the fields of the event: they are the fields written for the
list without that pair, which are the fields written for the list without the
first field of the fatal key. Otherwise the level is Error and the fields of
the call are those written for the list itself. -/
theorem Error_fatal_key (loga : Loga) (ctx : zeroLogContext) (err : GoError)
    (msg : GoString) (kvList : List Val) (callers : List GoString) (out : List Event)
    (hlen : kvList.length % 2 = 0) :
    ∃ ctx1 e, ctx.Error loga err msg kvList callers out = some (ctx1, out ++ [e]) ∧
      e.err = some err ∧ e.context = ctx.zLogger.context ∧
      ((∃ i, keyAt loga.FatalKey kvList i) →
        e.level = Level.Fatal ∧
        (∃ i, keyAt loga.FatalKey kvList i ∧ (∀ j, j < i → ¬ keyAt loga.FatalKey kvList j) ∧
          e.fields = appendFieldList (kvList.take i ++ kvList.drop (i + 2))) ∧
        (∃ pre post v, appendFieldList kvList = pre ++ (loga.FatalKey, v) :: post ∧
          (∀ f ∈ pre, f.1 ≠ loga.FatalKey) ∧ e.fields = pre ++ post)) ∧
      ((∀ i, ¬ keyAt loga.FatalKey kvList i) →
        e.level = Level.Error ∧ e.fields = appendFieldList kvList) := by
  obtain ⟨⟨kv1, found⟩, hr⟩ := scanFrom_even loga.FatalKey kvList hlen
  obtain ⟨ctx1, e, he, hfields, hcontext, herr, hlevel⟩ :=
    Error_of_scan loga ctx err msg kvList callers out (kv1, found) hr
  refine ⟨ctx1, e, he, herr, hcontext, ?_, ?_⟩
  · intro hex
    cases found with
    | true =>
      obtain ⟨i, hi, _, hmin, hkv⟩ := scanFrom_found loga.FatalKey kvList kv1 hr
      obtain ⟨pre, post, v, hl, hpre, hr1⟩ := scanFrom_fields_found loga.FatalKey kvList kv1 hr
      exact ⟨hlevel, ⟨i, hi, hmin, by rw [hfields, ← hkv]⟩,
        ⟨pre, post, v, hl, hpre, by rw [hfields]; exact hr1⟩⟩
    | false =>
      obtain ⟨i, hi⟩ := hex
      exact absurd hi ((scanFrom_not_found loga.FatalKey kvList kv1 hr).2 i)
  · intro hno
    cases found with
    | true =>
      obtain ⟨i, hi, _⟩ := scanFrom_found loga.FatalKey kvList kv1 hr
      exact absurd hi (hno i)
    | false =>
      refine ⟨hlevel, ?_⟩
      rw [hfields, (scanFrom_not_found loga.FatalKey kvList kv1 hr).1]

/-- Witness of C1: an enabled call on a two-element list writes one event. -/
theorem Enabled_Info_verbosity_gate_witness :
    [Val.str (go "k"), Val.int 1].length % 2 = 0 ∧
    ∃ ctx1 e, (rootContext 1).Info sampleLoga 1 (go "m") [Val.str (go "k"), Val.int 1] [] [] =
      some (ctx1, [] ++ [e]) :=
  ⟨by decide,
    (Enabled_Info_verbosity_gate sampleLoga (rootContext 1) 1 (go "m")
      [Val.str (go "k"), Val.int 1] [] [] (by decide)).2.1 (by decide)⟩

/-- Witness of C2: a call at level 4 whose second pair has the warning key. -/
theorem Info_warning_key_witness :
    [Val.str (go "k"), Val.int 1, Val.str sampleLoga.WarningKey, Val.bool true].length % 2 = 0 ∧
    (4 : Int) ≤ (rootContext 5).maxVerbosity ∧
    ∃ ctx1 e, (rootContext 5).Info sampleLoga 4 (go "m")
        [Val.str (go "k"), Val.int 1, Val.str sampleLoga.WarningKey, Val.bool true] [] [] =
          some (ctx1, [] ++ [e]) ∧
      e.level = Level.Warn :=
  ⟨by decide, by decide,
    match Info_warning_key sampleLoga (rootContext 5) 4 (go "m")
      [Val.str (go "k"), Val.int 1, Val.str sampleLoga.WarningKey, Val.bool true] [] []
      (by decide) (by decide) with
    | ⟨ctx1, e, he, _, hfound, _⟩ => ⟨ctx1, e, he, (hfound ⟨2, by decide⟩).1⟩⟩

/-- Witness of C3: a call whose only pair has the fatal key. -/
theorem Error_fatal_key_witness :
    [Val.str sampleLoga.FatalKey, Val.bool true].length % 2 = 0 ∧
    ∃ ctx1 e, (rootContext 0).Error sampleLoga (some (go "boom")) (go "m")
        [Val.str sampleLoga.FatalKey, Val.bool true] [] [] = some (ctx1, [] ++ [e]) ∧
      e.err = some (some (go "boom")) ∧ e.level = Level.Fatal :=
  ⟨by decide,
    match Error_fatal_key sampleLoga (rootContext 0) (some (go "boom")) (go "m")
      [Val.str sampleLoga.FatalKey, Val.bool true] [] [] (by decide) with
    | ⟨ctx1, e, he, herr, _, hfound, _⟩ => ⟨ctx1, e, he, herr, (hfound ⟨0, by decide⟩).1⟩⟩

/-- C4. The code at an odd-length list whose last element, at a key position, is the
control key: the slice expression `kvList[i+2:]` is out of range and both `Info`
and `Error` panic; nothing is written. -/
theorem Info_Error_panic_on_trailing_key :
    sliceFrom [Val.str sampleLoga.WarningKey] 2 = none ∧
    (rootContext 0).Info sampleLoga 0 (go "m") [Val.str sampleLoga.WarningKey] [] [] = none ∧
    (rootContext 0).Error sampleLoga (some (go "boom")) (go "m")
      [Val.str sampleLoga.FatalKey] [] [] = none ∧
    (rootContext 0).Info sampleLoga 0 (go "m")
      [Val.str (go "k"), Val.int 1, Val.str sampleLoga.WarningKey] [] [] = none := by
  decide

/-- Counterexample to C5: a list that holds the warning key in two key positions, of
which the scan removes the first only, and a context that got the warning key
from `WithValues`, whose fields are never scanned. In both cases the written
event has a field of the warning key; the same happens in `Error` with the
fatal key. -/
theorem second_control_key_is_emitted :
    (∃ ctx1 e, (rootContext 0).Info sampleLoga 0 (go "m")
        [Val.str sampleLoga.WarningKey, Val.int 1, Val.str sampleLoga.WarningKey, Val.int 2]
        [] [] = some (ctx1, [e]) ∧ e.fields = [(sampleLoga.WarningKey, Val.int 2)]) ∧
    (∃ ctx1 e, (rootContext 0).Error sampleLoga none (go "m")
        [Val.str sampleLoga.FatalKey, Val.int 1, Val.str sampleLoga.FatalKey, Val.int 2]
        [] [] = some (ctx1, [e]) ∧ e.fields = [(sampleLoga.FatalKey, Val.int 2)]) ∧
    (∃ ctx1 e, ((rootContext 0).WithValues [Val.str sampleLoga.WarningKey, Val.bool true]).2.Info
        sampleLoga 0 (go "m") [] [] [] = some (ctx1, [e]) ∧
      e.level = Level.Info ∧ e.emitted = [(sampleLoga.WarningKey, Val.bool true)]) := by
  refine ⟨⟨_, _, rfl, ?_⟩, ⟨_, _, rfl, ?_⟩, ⟨_, _, rfl, ?_, ?_⟩⟩ <;> decide

/-- C5, amended. When at most one key position of the list holds the warning key and
no field of the context has it, no field of the event that `Info` writes has the
warning key; and when at most one key position holds the fatal key and no field
of the context has it, no field of the event that `Error` writes has the fatal
key. The fields of the event are those of the context and those of the call. -/
theorem emitted_fields_without_control_key (loga : Loga) (ctx ctx1 : zeroLogContext)
    (level : Int) (err : GoError) (msg : GoString) (kvList : List Val)
    (callers : List GoString) (out : List Event) (e : Event) :
    ((∀ a b, keyAt loga.WarningKey kvList a → keyAt loga.WarningKey kvList b → a = b) →
      (∀ f ∈ ctx.zLogger.context, f.1 ≠ loga.WarningKey) →
      ctx.Info loga level msg kvList callers out = some (ctx1, out ++ [e]) →
      ∀ f ∈ e.emitted, f.1 ≠ loga.WarningKey) ∧
    ((∀ a b, keyAt loga.FatalKey kvList a → keyAt loga.FatalKey kvList b → a = b) →
      (∀ f ∈ ctx.zLogger.context, f.1 ≠ loga.FatalKey) →
      ctx.Error loga err msg kvList callers out = some (ctx1, out ++ [e]) →
      ∀ f ∈ e.emitted, f.1 ≠ loga.FatalKey) := by
  have hscan : ∀ (key : GoString) (r : List Val × Bool),
      (∀ a b, keyAt key kvList a → keyAt key kvList b → a = b) →
      scanFrom key kvList = some r → ∀ f ∈ appendFieldList r.1, f.1 ≠ key := by
    intro key r huniq hr
    obtain ⟨kv1, found⟩ := r
    apply appendFieldList_no_key
    cases found with
    | true =>
      obtain ⟨i, hi, _, _, hkv⟩ := scanFrom_found key kvList kv1 hr
      simp only [hkv]
      exact no_key_after_removal key kvList i huniq hi
    | false =>
      obtain ⟨hkv, hno⟩ := scanFrom_not_found key kvList kv1 hr
      simp only [hkv]
      exact hno
  constructor
  · intro huniq hctx hinfo f hf
    by_cases hen : level ≤ ctx.maxVerbosity
    · cases hr : scanFrom loga.WarningKey kvList with
      | none =>
        rw [Info_enabled loga ctx level msg kvList callers out hen, hr] at hinfo
        exact Option.noConfusion hinfo
      | some r =>
        obtain ⟨ctx2, e2, he2, hfields, hcontext, _⟩ :=
          Info_of_scan loga ctx level msg kvList callers out hen r hr
        have hee : e2 = e := emitted_inj ctx2 ctx1 out e2 e (he2.symm.trans hinfo)
        subst hee
        rcases List.mem_append.mp hf with hf | hf
        · exact hctx f (hcontext ▸ hf)
        · exact hscan loga.WarningKey r huniq hr f (hfields ▸ hf)
    · rw [Info_disabled loga ctx level msg kvList callers out (by omega)] at hinfo
      simp at hinfo
  · intro huniq hctx herror f hf
    cases hr : scanFrom loga.FatalKey kvList with
    | none =>
      rw [Error_eq loga ctx err msg kvList callers out, hr] at herror
      exact Option.noConfusion herror
    | some r =>
      obtain ⟨ctx2, e2, he2, hfields, hcontext, _⟩ :=
        Error_of_scan loga ctx err msg kvList callers out r hr
      have hee : e2 = e := emitted_inj ctx2 ctx1 out e2 e (he2.symm.trans herror)
      subst hee
      rcases List.mem_append.mp hf with hf | hf
      · exact hctx f (hcontext ▸ hf)
      · exact hscan loga.FatalKey r huniq hr f (hfields ▸ hf)

/-- Witness of C5: the warning key in one key position only, on the root context. -/
theorem emitted_fields_without_control_key_witness :
    ∃ ctx1 e, (rootContext 0).Info sampleLoga 0 (go "m")
        [Val.str sampleLoga.WarningKey, Val.int 1, Val.str (go "k"), Val.int 2] [] [] =
          some (ctx1, [] ++ [e]) ∧
      ∀ f ∈ e.emitted, f.1 ≠ sampleLoga.WarningKey := by
  have hzero : ∀ a, keyAt sampleLoga.WarningKey
      [Val.str sampleLoga.WarningKey, Val.int 1, Val.str (go "k"), Val.int 2] a → a = 0 := by
    intro a ha
    have hlt := keyAt_lt_length _ _ _ ha
    simp only [List.length_cons, List.length_nil] at hlt
    interval_cases a
    · rfl
    · exact absurd ha (by decide)
    · exact absurd ha (by decide)
    · exact absurd ha (by decide)
  obtain ⟨ctx1, e, he⟩ : ∃ ctx1 e, (rootContext 0).Info sampleLoga 0 (go "m")
      [Val.str sampleLoga.WarningKey, Val.int 1, Val.str (go "k"), Val.int 2] [] [] =
        some (ctx1, [] ++ [e]) := ⟨_, _, rfl⟩
  exact ⟨ctx1, e, he,
    (emitted_fields_without_control_key sampleLoga (rootContext 0) ctx1 0 none (go "m")
      [Val.str sampleLoga.WarningKey, Val.int 1, Val.str (go "k"), Val.int 2] [] [] e).1
      (fun a b ha hb => (hzero a ha).trans (hzero b hb).symm)
      (fun f hf => absurd hf (List.not_mem_nil f)) he⟩

/-! ## Truncation and names -/

/-- Counterexample to C6: a string of three two-byte characters and `maxLen` 5. The
string is 6 bytes long, so it is cut in the middle of a character, and `fmt` pads
the 5 bytes to 5 runes: the result has 6 bytes, it is not the string followed by
two spaces, and it is not ".." followed by the last three bytes. -/
theorem truncate_multibyte :
    go "ééé" = [0xC3, 0xA9, 0xC3, 0xA9, 0xC3, 0xA9] ∧
    RuneCountInString (go "ééé") = 3 ∧
    truncate (go "ééé") 5 = some [0x2E, 0x2E, 0xA9, 0xC3, 0xA9, 0x20] ∧
    truncate (go "ééé") 5 ≠ some (go "ééé" ++ List.replicate 2 0x20) ∧
    truncate (go "ééé") 5 ≠ some (go ".." ++ (go "ééé").drop 3) := by
  decide

/-- C6, amended. For a string of one-byte (ASCII) characters and `maxLen >= 2`,
`truncate` returns a string of exactly `maxLen` characters: the string followed by
spaces when it is not longer than `maxLen`, and ".." followed by its last
`maxLen - 2` characters when it is longer. So `truncate("ab", 5)` is "ab" and three
spaces, and `truncate("abcdefghij", 5)` is "..hij". -/
theorem truncate_ascii (s : GoString) (maxLen : Int) (h2 : 2 ≤ maxLen)
    (hs : ∀ b ∈ s, b < 0x80) :
    (∃ r, truncate s maxLen = some r ∧ (r.length : Int) = maxLen ∧
      ((s.length : Int) ≤ maxLen → r = s ++ List.replicate (maxLen.toNat - s.length) 0x20) ∧
      (maxLen < (s.length : Int) → r = go ".." ++ s.drop (s.length - (maxLen.toNat - 2)))) ∧
    truncate (go "ab") 5 = some (go "ab   ") ∧
    truncate (go "abcdefghij") 5 = some (go "..hij") := by
  refine ⟨?_, by decide, by decide⟩
  obtain ⟨n, rfl⟩ := Int.eq_ofNat_of_zero_le (by omega : (0 : Int) ≤ maxLen)
  obtain ⟨r, hr, hlen, hshort, hlong⟩ := truncate_of_ascii_bytes s n (by omega) hs
  refine ⟨r, hr, by omega, fun h => ?_, fun h => ?_⟩
  · simpa using hshort (by omega)
  · simpa using hlong (by omega)

/-- Witness of C6: a ten-character name cut to five. -/
theorem truncate_ascii_witness :
    (2 : Int) ≤ 5 ∧ (∀ b ∈ go "abcdefghij", b < 0x80) ∧
    ∃ r, truncate (go "abcdefghij") 5 = some r ∧ (r.length : Int) = 5 :=
  ⟨by decide, by decide,
    match (truncate_ascii (go "abcdefghij") 5 (by decide) (by decide)).1 with
    | ⟨r, hr, hlen, _⟩ => ⟨r, hr, hlen⟩⟩

/-- C8. `WithName` leaves the receiver as it is and returns a context whose name is
the receiver's name, a slash and the new name when the receiver's name is not
empty, and the new name alone when it is, with the same verbosity ceiling and
logger and an empty skip-frame cell. The event that `logEvent` writes has the
message `truncate(prefix, 20) + " " + msg`, and `Info` and `Error` write nothing
but through `logEvent`: each of them writes no event or one event with that
message. The name of `root.WithName("a").WithName("b")` is "a/b", and its events
start with "a/b", 17 spaces and one more space. -/
theorem WithName_and_message (loga : Loga) (ctx : zeroLogContext) (name : GoString)
    (evt : Event) (level : Int) (err : GoError) (msg : GoString) (kvList : List Val)
    (callers : List GoString) (out : List Event) (verbosity : Int) :
    (ctx.WithName name).1 = ctx ∧
    (ctx.WithName name).2.namePrefix =
      (if ctx.namePrefix = [] then name else ctx.namePrefix ++ go "/" ++ name) ∧
    (ctx.WithName name).2.maxVerbosity = ctx.maxVerbosity ∧
    (ctx.WithName name).2.zLogger = ctx.zLogger ∧
    (ctx.WithName name).2.skipFrames = 0 ∧
    (∃ padded, truncate ctx.namePrefix 20 = some padded ∧
      (∃ ctx1 e, ctx.logEvent evt msg kvList callers out = some (ctx1, out ++ [e]) ∧
        e.msg = padded ++ go " " ++ msg) ∧
      (ctx.Info loga level msg kvList callers out = none ∨
        ctx.Info loga level msg kvList callers out = some (ctx, out) ∨
        ∃ ctx1 e, ctx.Info loga level msg kvList callers out = some (ctx1, out ++ [e]) ∧
          e.msg = padded ++ go " " ++ msg) ∧
      (ctx.Error loga err msg kvList callers out = none ∨
        ∃ ctx1 e, ctx.Error loga err msg kvList callers out = some (ctx1, out ++ [e]) ∧
          e.msg = padded ++ go " " ++ msg)) ∧
    (((rootContext verbosity).WithName (go "a")).2.WithName (go "b")).2.namePrefix = go "a/b" ∧
    truncate (go "a/b") 20 = some (go "a/b" ++ List.replicate 17 0x20) := by
  refine ⟨rfl, ?_, ?_, ?_, ?_, ?_, rfl, by decide⟩
  · by_cases hp : ctx.namePrefix = []
    · simp [zeroLogContext.WithName, zeroLogContext.clone, hp]
    · have hpos : ctx.namePrefix.length > 0 := List.length_pos.mpr hp
      simp [zeroLogContext.WithName, zeroLogContext.clone, hp, hpos]
  · simp only [zeroLogContext.WithName, zeroLogContext.clone]
    split_ifs <;> rfl
  · simp only [zeroLogContext.WithName, zeroLogContext.clone]
    split_ifs <;> rfl
  · simp only [zeroLogContext.WithName, zeroLogContext.clone]
    split_ifs <;> rfl
  · obtain ⟨padded, hpadded⟩ := truncate_some ctx.namePrefix maxLenLogger (by decide)
    have hlog : ∀ (ev : Event) (kv : List Val),
        ∃ ctx1 e, ctx.logEvent ev msg kv callers out = some (ctx1, out ++ [e]) ∧
          e.msg = padded ++ go " " ++ msg := by
      intro ev kv
      obtain ⟨p2, hp2, h⟩ := logEvent_some ctx ev msg kv callers out
      have hpp : p2 = padded := Option.some.inj (hp2.symm.trans hpadded)
      subst hpp
      exact ⟨_, _, h, rfl⟩
    refine ⟨padded, hpadded, hlog evt kvList, ?_, ?_⟩
    · by_cases hen : level ≤ ctx.maxVerbosity
      · rw [Info_enabled loga ctx level msg kvList callers out hen]
        cases scanFrom loga.WarningKey kvList with
        | none => exact Or.inl rfl
        | some r => exact Or.inr (Or.inr (hlog _ _))
      · exact Or.inr (Or.inl (Info_disabled loga ctx level msg kvList callers out (by omega)))
    · rw [Error_eq loga ctx err msg kvList callers out]
      cases scanFrom loga.FatalKey kvList with
      | none => exact Or.inl rfl
      | some r => exact Or.inr (hlog _ _)

/-! ## The skip-frame count -/

theorem int32_of_small (x : Int) (hlo : -2147483648 ≤ x) (hhi : x < 2147483648) :
    int32 x = x := by
  unfold int32
  omega

theorem framesLoop_single (function : GoString) (skip : Int) :
    framesLoop [function] skip =
      if isLoggingFrame function then int32 (skip + 1) else skip := rfl

theorem framesLoop_cons_cons (function f2 : GoString) (rest : List GoString) (skip : Int) :
    framesLoop (function :: f2 :: rest) skip =
      framesLoop (f2 :: rest) (if isLoggingFrame function then int32 (skip + 1) else skip) := rfl

theorem framesLoop_count (callers : List GoString) (skip : Int) (hne : callers ≠ [])
    (hlo : 0 ≤ skip) (hhi : skip + callers.length < 2147483648) :
    framesLoop callers skip = skip + (callers.countP isLoggingFrame : Nat) := by
  induction callers generalizing skip with
  | nil => exact absurd rfl hne
  | cons function rest ih =>
    have hcount := List.countP_le_length isLoggingFrame (l := rest)
    simp only [List.length_cons, Nat.cast_add, Nat.cast_one] at hhi
    cases rest with
    | nil =>
      rw [framesLoop_single]
      by_cases hf : isLoggingFrame function = true
      · rw [if_pos hf, int32_of_small _ (by omega) (by omega)]
        simp [hf]
      · rw [if_neg hf]
        simp [hf]
    | cons f2 rest2 =>
      rw [framesLoop_cons_cons]
      by_cases hf : isLoggingFrame function = true
      · have hstep : int32 (skip + 1) = skip + 1 := int32_of_small _ (by omega) (by omega)
        rw [if_pos hf, hstep, ih (skip + 1) (List.cons_ne_nil _ _) (by omega) (by omega),
          List.countP_cons_of_pos _ (l := f2 :: rest2) hf]
        push_cast
        omega
      · rw [if_neg hf, ih skip (List.cons_ne_nil _ _) hlo (by omega),
          List.countP_cons_of_neg _ (l := f2 :: rest2) hf]

theorem countP_eq_takeWhile_length (callers : List GoString)
    (h : ∀ f ∈ callers.dropWhile isLoggingFrame, isLoggingFrame f = false) :
    callers.countP isLoggingFrame = innermostLoggingFrames callers := by
  have hsplit : callers.countP isLoggingFrame =
      (callers.takeWhile isLoggingFrame ++ callers.dropWhile isLoggingFrame).countP
        isLoggingFrame := by
    rw [List.takeWhile_append_dropWhile]
  have h1 : (callers.takeWhile isLoggingFrame).countP isLoggingFrame =
      (callers.takeWhile isLoggingFrame).length :=
    List.countP_eq_length.mpr fun f hf => (List.mem_takeWhile_imp hf)
  have h2 : (callers.dropWhile isLoggingFrame).countP isLoggingFrame = 0 :=
    List.countP_eq_zero.mpr fun f hf => by simp [h f hf]
  rw [hsplit, List.countP_append, h1, h2, innermostLoggingFrames]
  rfl

theorem calculateSkipFrames_cached (ctx : zeroLogContext) (callers : List GoString)
    (h : 0 < ctx.skipFrames) : ctx.calculateSkipFrames callers = (ctx, ctx.skipFrames) := by
  simp only [zeroLogContext.calculateSkipFrames, gt_iff_lt, h, if_true]

theorem calculateSkipFrames_stores (ctx : zeroLogContext) (callers : List GoString)
    (h : 0 < (ctx.calculateSkipFrames callers).2) :
    (ctx.calculateSkipFrames callers).1.skipFrames = (ctx.calculateSkipFrames callers).2 := by
  unfold zeroLogContext.calculateSkipFrames at h ⊢
  by_cases hc : ctx.skipFrames > 0
  · simp only [hc, if_true]
  · by_cases hn : callers.length = 0
    · simp only [hc, if_false, hn, if_true] at h
      omega
    · simp only [hc, if_false, hn]

theorem afterCalls_cached (ctx : zeroLogContext) (later : List (List GoString))
    (h : 0 < ctx.skipFrames) : afterCalls ctx later = ctx := by
  induction later with
  | nil => rfl
  | cons callers rest ih =>
    simp only [afterCalls, List.foldl_cons, calculateSkipFrames_cached ctx callers h]
    exact ih

/-- Counterexample to C7: a field value logs while it is being formatted, so the
capture holds frames of the logging layers on both sides of an application
frame. Three consecutive innermost frames belong to the logging layers; the
function returns 5. -/
theorem calculateSkipFrames_counts_outer_frames :
    (rootContext 0).skipFrames = 0 ∧
    [go "github.com/wangyd1988/admiral-inspur/pkg/log/kzerolog.(*zeroLogContext).logEvent",
      go "github.com/wangyd1988/admiral-inspur/pkg/log/kzerolog.(*zeroLogContext).Info",
      go "github.com/go-logr/logr.Logger.Info",
      go "main.(*Item).String",
      go "github.com/wangyd1988/admiral-inspur/pkg/log/kzerolog.(*zeroLogContext).logEvent",
      go "github.com/wangyd1988/admiral-inspur/pkg/log/kzerolog.(*zeroLogContext).Info",
      go "main.main"].length ≤ 10 ∧
    innermostLoggingFrames
      [go "github.com/wangyd1988/admiral-inspur/pkg/log/kzerolog.(*zeroLogContext).logEvent",
        go "github.com/wangyd1988/admiral-inspur/pkg/log/kzerolog.(*zeroLogContext).Info",
        go "github.com/go-logr/logr.Logger.Info",
        go "main.(*Item).String",
        go "github.com/wangyd1988/admiral-inspur/pkg/log/kzerolog.(*zeroLogContext).logEvent",
        go "github.com/wangyd1988/admiral-inspur/pkg/log/kzerolog.(*zeroLogContext).Info",
        go "main.main"] = 3 ∧
    ((rootContext 0).calculateSkipFrames
      [go "github.com/wangyd1988/admiral-inspur/pkg/log/kzerolog.(*zeroLogContext).logEvent",
        go "github.com/wangyd1988/admiral-inspur/pkg/log/kzerolog.(*zeroLogContext).Info",
        go "github.com/go-logr/logr.Logger.Info",
        go "main.(*Item).String",
        go "github.com/wangyd1988/admiral-inspur/pkg/log/kzerolog.(*zeroLogContext).logEvent",
        go "github.com/wangyd1988/admiral-inspur/pkg/log/kzerolog.(*zeroLogContext).Info",
        go "main.main"]).2 = 5 := by
  decide

/-- C7, amended. With an empty cell and a capture of at most 10 frames,
`calculateSkipFrames` returns the number of captured frames that belong to the
logging layers, wherever they are in the capture, and stores it; this is the
number of consecutive innermost frames of the logging layers when no frame of the
logging layers comes after an application frame. For an empty capture it
returns 0. -/
theorem calculateSkipFrames_count (ctx : zeroLogContext) (callers : List GoString)
    (hcell : ctx.skipFrames = 0) (hlen : callers.length ≤ 10) :
    (ctx.calculateSkipFrames callers).2 = (callers.countP isLoggingFrame : Nat) ∧
    (ctx.calculateSkipFrames callers).1.skipFrames = (callers.countP isLoggingFrame : Nat) ∧
    ((∀ f ∈ callers.dropWhile isLoggingFrame, isLoggingFrame f = false) →
      (ctx.calculateSkipFrames callers).2 = (innermostLoggingFrames callers : Nat)) ∧
    (ctx.calculateSkipFrames []).2 = 0 := by
  have hnot : ¬ ctx.skipFrames > 0 := by omega
  have hmain : (ctx.calculateSkipFrames callers).2 = (callers.countP isLoggingFrame : Nat) ∧
      (ctx.calculateSkipFrames callers).1.skipFrames = (callers.countP isLoggingFrame : Nat) := by
    cases callers with
    | nil =>
      simp [zeroLogContext.calculateSkipFrames, hcell]
    | cons function rest =>
      have hn : ¬ (function :: rest).length = 0 := by simp
      have hloop := framesLoop_count (function :: rest) ctx.skipFrames (List.cons_ne_nil _ _)
        (by omega) (by rw [hcell]; omega)
      rw [hcell, zero_add] at hloop
      simp [zeroLogContext.calculateSkipFrames, hcell, hloop]
  refine ⟨hmain.1, hmain.2, fun h => ?_, ?_⟩
  · rw [hmain.1, countP_eq_takeWhile_length callers h]
  · simp only [zeroLogContext.calculateSkipFrames, hnot, if_false, List.length_nil, if_true]

/-- Witness of C7: the capture of a call made through the logging facade. -/
theorem calculateSkipFrames_count_witness :
    (rootContext 0).skipFrames = 0 ∧
    [go "github.com/wangyd1988/admiral-inspur/pkg/log/kzerolog.(*zeroLogContext).logEvent",
      go "github.com/go-logr/logr.Logger.Info", go "main.main"].length ≤ 10 ∧
    ((rootContext 0).calculateSkipFrames
      [go "github.com/wangyd1988/admiral-inspur/pkg/log/kzerolog.(*zeroLogContext).logEvent",
        go "github.com/go-logr/logr.Logger.Info", go "main.main"]).2 =
      ([go "github.com/wangyd1988/admiral-inspur/pkg/log/kzerolog.(*zeroLogContext).logEvent",
        go "github.com/go-logr/logr.Logger.Info", go "main.main"].countP isLoggingFrame : Nat) :=
  ⟨rfl, by decide,
    (calculateSkipFrames_count (rootContext 0)
      [go "github.com/wangyd1988/admiral-inspur/pkg/log/kzerolog.(*zeroLogContext).logEvent",
        go "github.com/go-logr/logr.Logger.Info", go "main.main"] rfl (by decide)).1⟩

/-- A call on an empty capture, which `logEvent` never makes, returns 0 and leaves
the cell empty, so the next call counts the frames of its own capture: a
positive count is what the cell keeps. -/
theorem calculateSkipFrames_zero_is_recomputed :
    ((rootContext 0).calculateSkipFrames []).2 = 0 ∧
    (((rootContext 0).calculateSkipFrames []).1.calculateSkipFrames
      [go "github.com/wangyd1988/admiral-inspur/pkg/log/kzerolog.(*zeroLogContext).logEvent",
        go "github.com/go-logr/logr.Logger.Info", go "main.main"]).2 = 2 := by
  decide

/-- Once a call has returned a positive count, every later call returns it and
leaves the cell as it is. -/
theorem calculateSkipFrames_positive_memoized (ctx : zeroLogContext) (callers : List GoString)
    (later : List (List GoString)) (callers2 : List GoString)
    (hpos : 0 < (ctx.calculateSkipFrames callers).2) :
    (afterCalls (ctx.calculateSkipFrames callers).1 later).calculateSkipFrames callers2 =
      ((ctx.calculateSkipFrames callers).1, (ctx.calculateSkipFrames callers).2) := by
  have hstored := calculateSkipFrames_stores ctx callers hpos
  have hcell : 0 < (ctx.calculateSkipFrames callers).1.skipFrames := by
    rw [hstored]
    exact hpos
  rw [afterCalls_cached _ later hcell, calculateSkipFrames_cached _ callers2 hcell, hstored]

/-- The count of a call that `logEvent` makes is positive: the frame of `logEvent`
itself is counted. -/
theorem calculateSkipFrames_positive (ctx : zeroLogContext) (callers : List GoString)
    (h : capturedByLogEvent ctx callers = true) : 0 < (ctx.calculateSkipFrames callers).2 := by
  obtain ⟨hcell, hlen, function, rest, hcallers, hlog⟩ :
      0 ≤ ctx.skipFrames ∧ callers.length ≤ 10 ∧
        ∃ function rest, callers = function :: rest ∧ isLoggingFrame function = true := by
    cases callers with
    | nil => simp [capturedByLogEvent] at h
    | cons function rest =>
      simp only [capturedByLogEvent, Bool.and_eq_true, decide_eq_true_eq] at h
      exact ⟨h.1.1, h.1.2, function, rest, rfl, h.2⟩
  by_cases hc : ctx.skipFrames > 0
  · rw [calculateSkipFrames_cached ctx callers hc]
    exact hc
  · have hzero : ctx.skipFrames = 0 := by omega
    have hne : callers ≠ [] := by
      rw [hcallers]
      exact List.cons_ne_nil _ _
    have hn : ¬ callers.length = 0 := fun h0 => hne (List.length_eq_zero.mp h0)
    have hloop := framesLoop_count callers ctx.skipFrames hne (by omega) (by omega)
    have hcount : 0 < callers.countP isLoggingFrame := by
      rw [hcallers, List.countP_cons_of_pos _ (l := rest) hlog]
      omega
    rw [hzero, zero_add] at hloop
    have hval : (ctx.calculateSkipFrames callers).2 = framesLoop callers 0 := by
      simp [zeroLogContext.calculateSkipFrames, hzero, hn]
    rw [hval, hloop]
    omega

/-- C9. The skip-frame count is memoized per context. The count `n` that a call of
`calculateSkipFrames` made by `logEvent` returns is positive, and every later
call on the same context returns `n` and leaves the cell as it is, whatever the
call stacks of the calls in between and of the later call are. -/
theorem calculateSkipFrames_memoized (ctx : zeroLogContext) (callers : List GoString)
    (later : List (List GoString)) (callers2 : List GoString)
    (hcall : capturedByLogEvent ctx callers = true) :
    0 < (ctx.calculateSkipFrames callers).2 ∧
    (afterCalls (ctx.calculateSkipFrames callers).1 later).calculateSkipFrames callers2 =
      ((ctx.calculateSkipFrames callers).1, (ctx.calculateSkipFrames callers).2) :=
  ⟨calculateSkipFrames_positive ctx callers hcall,
    calculateSkipFrames_positive_memoized ctx callers later callers2
      (calculateSkipFrames_positive ctx callers hcall)⟩

/-- Witness of C9: a first call through the logging facade, two calls in between,
and a later call on a different stack. -/
theorem calculateSkipFrames_memoized_witness :
    capturedByLogEvent (rootContext 0)
      [go "github.com/wangyd1988/admiral-inspur/pkg/log/kzerolog.(*zeroLogContext).logEvent",
        go "github.com/go-logr/logr.Logger.Info", go "main.main"] = true ∧
    (afterCalls ((rootContext 0).calculateSkipFrames
      [go "github.com/wangyd1988/admiral-inspur/pkg/log/kzerolog.(*zeroLogContext).logEvent",
        go "github.com/go-logr/logr.Logger.Info", go "main.main"]).1
      [[], [go "main.main"]]).calculateSkipFrames [go "main.other"] =
      (((rootContext 0).calculateSkipFrames
        [go "github.com/wangyd1988/admiral-inspur/pkg/log/kzerolog.(*zeroLogContext).logEvent",
          go "github.com/go-logr/logr.Logger.Info", go "main.main"]).1,
        ((rootContext 0).calculateSkipFrames
          [go "github.com/wangyd1988/admiral-inspur/pkg/log/kzerolog.(*zeroLogContext).logEvent",
            go "github.com/go-logr/logr.Logger.Info", go "main.main"]).2) :=
  ⟨by decide,
    (calculateSkipFrames_memoized (rootContext 0)
      [go "github.com/wangyd1988/admiral-inspur/pkg/log/kzerolog.(*zeroLogContext).logEvent",
        go "github.com/go-logr/logr.Logger.Info", go "main.main"]
      [[], [go "main.main"]] [go "main.other"]
      (by decide)).2⟩

end Kzerolog

namespace Util

/-! ## The fallback of `FindGroupVersionResource` -/

theorem equalFoldRunes_length (simpleFold : Char → Char → Bool) :
    ∀ s t : List Char, equalFoldRunes simpleFold s t = true → s.length = t.length
  | [], [], _ => rfl
  | [], _ :: _, h => by simp [equalFoldRunes] at h
  | _ :: _, [], h => by simp [equalFoldRunes] at h
  | sr :: s, tr :: t, h => by
    simp only [equalFoldRunes, Bool.and_eq_true] at h
    simp [equalFoldRunes_length simpleFold s t h.2]

theorem EqualFold_v1_excludes (simpleFold : Char → Char → Bool) (version : String)
    (h : EqualFold simpleFold version "v1" = true) :
    EqualFold simpleFold version "v1beta1" = false := by
  have h1 := equalFoldRunes_length simpleFold _ _ h
  cases h2 : EqualFold simpleFold version "v1beta1" with
  | false => rfl
  | true =>
    have h3 := equalFoldRunes_length simpleFold _ _ h2
    rw [h1] at h3
    exact absurd h3 (by decide)

theorem perm_pair {α : Type} (a b : α) (l : List α) (h : l.Perm [a, b]) :
    l = [a, b] ∨ l = [b, a] := by
  obtain ⟨x, y, rfl⟩ := List.length_eq_two.mp h.length_eq
  have hx : x ∈ [a, b] := h.subset (List.mem_cons_self x [y])
  simp only [List.mem_cons, List.mem_singleton, List.not_mem_nil, or_false] at hx
  rcases hx with rfl | rfl
  · have hy : [y].Perm [b] := List.Perm.cons_inv h
    rw [List.perm_singleton.mp hy]
    exact Or.inl rfl
  · have hy : [y].Perm [a] := List.Perm.cons_inv (h.trans (List.Perm.swap x a []))
    rw [List.perm_singleton.mp hy]
    exact Or.inr rfl

/-- The loop over the map returns the entry of the version that matches, whatever
the order of the iteration. -/
theorem rangeLoop_perm (simpleFold : Char → Char → Bool) (version : String)
    (entries : List (String × GroupVersionResource)) (hperm : entries.Perm verionToGVR) :
    rangeLoop simpleFold version entries =
      if EqualFold simpleFold version "v1" then some (builtinResource "v1")
      else if EqualFold simpleFold version "v1beta1" then some (builtinResource "v1beta1")
      else none := by
  rcases perm_pair _ _ entries hperm with rfl | rfl
  · cases h1 : EqualFold simpleFold version "v1" <;>
      cases h2 : EqualFold simpleFold version "v1beta1" <;>
      simp [rangeLoop, discoveryV1Version, discoveryV1GroupName, EndpointSliceResource,
        builtinResource, h1, h2]
  · cases h1 : EqualFold simpleFold version "v1" with
    | false =>
      cases h2 : EqualFold simpleFold version "v1beta1" <;>
        simp [rangeLoop, discoveryV1Version, discoveryV1GroupName, EndpointSliceResource,
          builtinResource, h1, h2]
    | true =>
      have h2 := EqualFold_v1_excludes simpleFold version h1
      simp [rangeLoop, discoveryV1Version, discoveryV1GroupName, EndpointSliceResource,
        builtinResource, h1, h2]

/-- C10. When the mapper succeeds, `FindGroupVersionResource` returns the resource of
the mapping and no error. When it fails, the function returns the built-in
resource of "discovery.k8s.io", version `v` and "endpointslices", with no error,
exactly when the text of the error contains "no matches for kind", the kind is
"EndpointSlice" ignoring case and the version of the object is `v` ignoring
case, for `v` either "v1" or "v1beta1"; in every other case of failure it returns
no resource and the error of the mapper, wrapped. -/
theorem FindGroupVersionResource_outcomes (simpleFold : Char → Char → Bool)
    (entries : List (String × GroupVersionResource)) (hperm : entries.Perm verionToGVR)
    (gvk : GroupVersionKind) (restMapper : GroupKind → String → MappingResult) :
    (∀ m, restMapper gvk.GroupKind gvk.Version = MappingResult.mapping m →
      FindGroupVersionResource simpleFold entries gvk restMapper = (some m.Resource, none)) ∧
    (∀ err, restMapper gvk.GroupKind gvk.Version = MappingResult.failure err →
      (FindGroupVersionResource simpleFold entries gvk restMapper =
          (some (builtinResource "v1"), none) ↔
        builtinApplies simpleFold err gvk "v1" = true) ∧
      (FindGroupVersionResource simpleFold entries gvk restMapper =
          (some (builtinResource "v1beta1"), none) ↔
        builtinApplies simpleFold err gvk "v1beta1" = true) ∧
      (builtinApplies simpleFold err gvk "v1" = false →
        builtinApplies simpleFold err gvk "v1beta1" = false →
        FindGroupVersionResource simpleFold entries gvk restMapper =
          (none, some (Wrapf err "error getting REST mapper for %#v" gvk)))) := by
  refine ⟨fun m hm => by simp only [FindGroupVersionResource, hm], fun err herr => ?_⟩
  have hloop := rangeLoop_perm simpleFold gvk.Version entries hperm
  have hne : builtinResource "v1" ≠ builtinResource "v1beta1" := by decide
  have hex := EqualFold_v1_excludes simpleFold gvk.Version
  cases hc : Contains err.text "no matches for kind" <;>
    cases hk : EqualFold simpleFold gvk.Kind "EndpointSlice" <;>
    cases h1 : EqualFold simpleFold gvk.Version "v1" <;>
    cases h2 : EqualFold simpleFold gvk.Version "v1beta1" <;>
    simp [FindGroupVersionResource, herr, ErrMapperNotsupported, EndpointSliceKind, hloop,
      builtinApplies, hc, hk, h1, h2, hne, hne.symm] at hex ⊢

/-- Witness of C10: an endpoint slice of version "V1Beta1" that the mapper does not
know. -/
theorem FindGroupVersionResource_outcomes_witness :
    verionToGVR.Perm verionToGVR ∧
    FindGroupVersionResource asciiFold verionToGVR
      { Group := "discovery.k8s.io", Version := "V1Beta1", Kind := "endpointslice" }
      (fun _ _ => MappingResult.failure { text := "no matches for kind EndpointSlice" }) =
        (some (builtinResource "v1beta1"), none) :=
  ⟨List.Perm.refl _,
    ((FindGroupVersionResource_outcomes asciiFold verionToGVR (List.Perm.refl _)
      { Group := "discovery.k8s.io", Version := "V1Beta1", Kind := "endpointslice" }
      (fun _ _ => MappingResult.failure { text := "no matches for kind EndpointSlice" })).2
      { text := "no matches for kind EndpointSlice" } rfl).2.1.mpr (by decide)⟩

end Util
